import Mathlib

/-!
Verification development for the NEL session controller and evaluator worker
(`lib/nel.js`, `lib/server/context.js`, `lib/server/main.js`).

Javascript strings are modelled as `List Char`; Javascript association
objects (the context table, display table and MIME bundles) as association
lists; machine behaviour that is driven by callbacks is modelled as a pure
step function that returns the list of callback invocations (events) it
performs.  Each definition is a direct translation of the corresponding
source function; comments point back to the source construct whenever the
translation is not literal (for example, regular expressions are expanded
into explicit matching functions with the same semantics).
-/

namespace Nel

/-! ### Worker-side execution context (`lib/server/context.js`)

`Context.prototype.send` stamps the context id on the message, drops the
message if the context is already `done`, and flips `done` (clearing
`async`) when the message carries `end`.  The message kind records which
helper produced the message (result, error, mime, stream or request); it
plays no role in `send` itself but shows that the drop rule applies to all
message kinds alike. -/

inductive WorkerMsgKind where
  | resultMsg
  | errorMsg
  | mimeMsg
  | streamMsg
  | requestMsg
  | displayMsg
deriving DecidableEq

structure WorkerMsg where
  kind : WorkerMsgKind
  endFlag : Bool
deriving DecidableEq

/-- State of a worker `Context` relevant to `send`: the `_done` and
`_async` flags. -/
structure WorkerCtx where
  done : Bool
  async : Bool
deriving DecidableEq

/-- Translation of `Context.prototype.send` (context.js lines 286-302).
The returned option is the message actually transmitted over IPC
(`process.send`); `none` means the message was dropped. -/
def ctxSend (c : WorkerCtx) (m : WorkerMsg) : WorkerCtx × Option WorkerMsg :=
  if c.done then (c, none)
  else if m.endFlag then ({ c with done := true, async := false }, some m)
  else (c, some m)

/-- Iterate `ctxSend` over a list of messages, collecting the transmitted
ones in order. -/
def ctxSendAll (c : WorkerCtx) : List WorkerMsg → WorkerCtx × List WorkerMsg
  | [] => (c, [])
  | m :: rest =>
      let step := ctxSend c m
      let tail := ctxSendAll step.1 rest
      (tail.1, (match step.2 with
                | some mm => [mm]
                | none => []) ++ tail.2)

/-- Holds when every message with the `end` flag in the list is the final
element of the list (so in particular there is at most one such message
and nothing is transmitted after it). -/
def endOnlyFinal : List WorkerMsg → Bool
  | [] => true
  | m :: rest => if m.endFlag then rest.isEmpty else endOnlyFinal rest

/-! ### Expression extractor (`lib/nel.js` lines 1264-1387)

The two regular expressions `simpleIdentifierRE` and `complexIdentifierRE`
are both anchored at the end of the string (`$`), and `RegExp.exec` returns
the leftmost position from which the pattern matches through to the end of
the string.  They are translated into explicit matching functions with the
same semantics: `simpleExec` and `complexExec` return the leftmost such
position together with the matched suffix, or `none`. -/

/-- First character class of an identifier, `[_$a-zA-Z]`. -/
def isIdentStart (c : Char) : Bool :=
  c = '_' || c = '$' || ('a' ≤ c && c ≤ 'z') || ('A' ≤ c && c ≤ 'Z')

/-- Continuation character class of an identifier, `[_$a-zA-Z0-9]`. -/
def isIdentChar (c : Char) : Bool :=
  isIdentStart c || ('0' ≤ c && c ≤ '9')

/-- Character class of the Javascript regular expression `\s`
(`whitespaceRE`). -/
def isJsWhitespace (c : Char) : Bool :=
  c = ' ' || c = '\t' || c = '\n' || c = '\r' || c = '\x0b' || c = '\x0c' ||
  c = '\u00A0' || c = '\u1680' || ('\u2000' ≤ c && c ≤ '\u200A') ||
  c = '\u2028' || c = '\u2029' || c = '\u202F' || c = '\u205F' ||
  c = '\u3000' || c = '\uFEFF'

/-- Character class of `.` in a Javascript regular expression: any
character except a line terminator. -/
def isRegexDot (c : Char) : Bool :=
  !(c = '\n' || c = '\r' || c = '\u2028' || c = '\u2029')

/-- Leftmost-match semantics of `simpleIdentifierRE.exec`
(`/[_$a-zA-Z][_$a-zA-Z0-9]*$/`): the anchored pattern matches at
position `i` exactly when `s[i]` is an identifier start character and
every later character is an identifier character; `exec` returns the
leftmost such position and the matched suffix. -/
def simpleExec (s : List Char) : Option (Nat × List Char) :=
  ((List.range s.length).find? fun i =>
      isIdentStart (s.getD i ' ') && (s.drop (i + 1)).all isIdentChar).map
    fun i => (i, s.drop i)

/-- Does `u` match `[_$a-zA-Z][_$a-zA-Z0-9]*` exactly? -/
def isSegIdent (u : List Char) : Bool :=
  match u with
  | [] => false
  | c :: rest => isIdentStart c && rest.all isIdentChar

/-- Does `u` match `\[q.*q\]` exactly (for quote character `q`)? -/
def isSegBracket (q : Char) (u : List Char) : Bool :=
  match u with
  | '[' :: c :: rest =>
      c = q &&
      (match rest.reverse with
       | ']' :: c2 :: revMid => c2 = q && revMid.all isRegexDot
       | _ => false)
  | _ => false

/-- Does `u` match one alternative of the repeated group in
`complexIdentifierRE`, namely `[_$a-zA-Z][_$a-zA-Z0-9]*`,
`\.[_$a-zA-Z][_$a-zA-Z0-9]*`, `\[".*"\]` or `\['.*'\]`? -/
def isSegOk (u : List Char) : Bool :=
  isSegIdent u ||
  (match u with
   | '.' :: w => isSegIdent w
   | _ => false) ||
  isSegBracket '"' u ||
  isSegBracket '\'' u

/-- Fuelled decision of whether `s` splits into zero or more group
alternatives.  Every alternative consumes at least one character, so fuel
equal to the length of the list is always sufficient; when the fuel runs
out the remaining list is accepted exactly when it is empty, which
coincides with the unfuelled semantics whenever `s.length ≤ fuel`. -/
def segsMatchF : Nat → List Char → Bool
  | 0, s => s.isEmpty
  | fuel + 1, s =>
      s.isEmpty ||
      ((List.range s.length).any fun k =>
        isSegOk (s.take (k + 1)) && segsMatchF fuel (s.drop (k + 1)))

/-- Does `s` split into zero or more group alternatives? -/
def segsMatch (s : List Char) : Bool := segsMatchF s.length s

/-- Does `s` match the whole of `complexIdentifierRE` (an identifier
followed by zero or more group alternatives), consuming `s` exactly
(`$`-anchored)? -/
def complexToEnd (s : List Char) : Bool :=
  match s with
  | [] => false
  | c :: t =>
      isIdentStart c &&
      ((List.range (t.length + 1)).any fun k =>
        (t.take k).all isIdentChar && segsMatch (t.drop k))

/-- Leftmost-match semantics of `complexIdentifierRE.exec`: the leftmost
position from which the pattern matches through to the end of the
string, with the matched suffix. -/
def complexExec (s : List Char) : Option (Nat × List Char) :=
  ((List.range s.length).find? fun i => complexToEnd (s.drop i)).map
    fun i => (i, s.drop i)

/-- Result record of `parseExpression` (`Expression` in nel.js). -/
structure Expression where
  matchedText : List Char
  scope : List Char
  leftOp : List Char
  selector : List Char
  rightOp : List Char
deriving DecidableEq

/-- Test `whitespaceRE.test(expression[expression.length - 1])`. -/
def lastIsWhitespace (l : List Char) : Bool :=
  match l.getLast? with
  | some c => isJsWhitespace c
  | none => false

/-- Selector extraction step of `parseExpression`: run
`simpleIdentifierRE.exec` on the prefix; on a match the selector is the
matched text and the expression is cut at the match index
(`expression.slice(0, re.index)`); otherwise the selector is empty.
Returns `(selector, remaining expression)`. -/
def stripSelector (expr0 : List Char) : List Char × List Char :=
  match simpleExec expr0 with
  | none => ([], expr0)
  | some im => (im.2, expr0.take im.1)

/-- Left-operator detection step of `parseExpression`: check whether the
expression ends in `.`, `["` or `['` (in that order), returning
`(leftOp, rightOp, expression with the operator stripped)`.  Matching on
the reversed list checks the same last-one-or-two-character conditions as
the source's `expression[expression.length - 1]` /
`expression[expression.length - 2]` comparisons, and `rest.reverse` is
the corresponding `expression.slice(0, ...)`. -/
def detectLeftOp (e : List Char) : Option (List Char × List Char × List Char) :=
  match e.reverse with
  | '.' :: rest => some (['.'], [], rest.reverse)
  | '"' :: '[' :: rest => some (['[', '"'], ['"', ']'], rest.reverse)
  | '\'' :: '[' :: rest => some (['[', '\''], ['\'', ']'], rest.reverse)
  | _ => none

/-- Translation of `parseExpression` (nel.js lines 1311-1387).  The branch
guarded by `!leftOp` after a failed `complexIdentifierRE.exec` is kept for
faithfulness even though `leftOp` is never empty at that point. -/
def parseExpression (code : List Char) (cursorPos : Nat) : Option Expression :=
  let expr0 := code.take cursorPos
  if expr0.isEmpty || lastIsWhitespace expr0 then
    some { matchedText := [], scope := [], leftOp := [], selector := [], rightOp := [] }
  else
    let sel := stripSelector expr0
    match detectLeftOp sel.2 with
    | none =>
        some { matchedText := (code.take cursorPos).drop sel.2.length,
               scope := [], leftOp := [], selector := sel.1, rightOp := [] }
    | some ops =>
        match complexExec ops.2.2 with
        | some im =>
            some { matchedText := (code.take cursorPos).drop im.1,
                   scope := im.2, leftOp := ops.1, selector := sel.1,
                   rightOp := ops.2.1 }
        | none =>
            if ops.1.isEmpty then
              some { matchedText := (code.take cursorPos).drop ops.2.2.length,
                     scope := [], leftOp := ops.1, selector := sel.1,
                     rightOp := ops.2.1 }
            else none

/-! ### Completion (`Session.prototype.complete`, nel.js lines 918-1055)

`complete` parses the expression locally.  On a `null` parse it delivers an
empty completion synchronously; otherwise it dispatches an internal
`getAllPropertyNames` task whose `onSuccess` closure post-processes the
worker's name list.  `completeTask` captures the dispatch decision and the
task built (action and code); `completeOnSuccess` is the post-processing
closure as a pure function of the parsed expression, the original call
arguments and the worker's name list. -/

/-- List `javascriptKeywords` (nel.js lines 1246-1262). -/
def javascriptKeywords : List (List Char) :=
  ["break".toList, "case".toList, "catch".toList, "continue".toList,
   "debugger".toList, "default".toList, "delete".toList, "do".toList,
   "else".toList, "finally".toList, "for".toList, "function".toList,
   "if".toList, "in".toList, "instanceof".toList, "new".toList,
   "return".toList, "switch".toList, "this".toList, "throw".toList,
   "try".toList, "typeof".toList, "var".toList, "void".toList,
   "while".toList, "with".toList,
   "class".toList, "const".toList, "enum".toList, "export".toList,
   "extends".toList, "import".toList, "super".toList,
   "implements".toList, "interface".toList, "let".toList,
   "package".toList, "private".toList, "protected".toList,
   "public".toList, "static".toList, "yield".toList,
   "null".toList, "true".toList, "false".toList]

/-- Javascript `String.prototype.indexOf`: index of the first occurrence
of `pat` in `s`, or `-1`. -/
def jsIndexOf (s pat : List Char) : Int :=
  match (List.range (s.length + 1)).find? fun i => pat.isPrefixOf (s.drop i) with
  | some i => (i : Int)
  | none => -1

/-- Javascript `String.prototype.charAt` on an integer index; `none`
models the empty string returned for an out-of-range index. -/
def jsCharAt (s : List Char) (i : Int) : Option Char :=
  if i < 0 then none else s[i.toNat]?

/-- Loop computing `cursorEnd` (nel.js lines 1023-1030): starting from
`cursorStart`, advance while the next character of the shortest match
equals the character of `code` at the cursor and the cursor is below the
code length.  The list argument is the not-yet-compared tail of the
shortest match (so the loop guard `i < ml` is the list being nonempty). -/
def advanceCursorEnd (code : List Char) : List Char → Int → Int
  | [], ce => ce
  | c :: rest, ce =>
      if ce < (code.length : Int) then
        if jsCharAt code ce = some c then advanceCursorEnd code rest (ce + 1)
        else ce
      else ce

/-- Javascript `matchList.reduce((p, c) => p.length <= c.length ? p : c)`:
the first element of minimal length.  (On the empty list `reduce` would
throw; the source only evaluates it under `matchList.length > 0`.) -/
def jsShortest : List (List Char) → List Char
  | [] => []
  | x :: xs => xs.foldl (fun p c => if p.length ≤ c.length then p else c) x

/-- Length of the longest common prefix of two lists. -/
def lcpLen : List Char → List Char → Nat
  | a :: as, b :: bs => if a = b then lcpLen as bs + 1 else 0
  | _, _ => 0

/-- Completion record delivered to `onSuccess`
(`CompletionMessage.completion`). -/
structure CompletionResult where
  list : List (List Char)
  code : List Char
  cursorPos : Nat
  matchedText : List Char
  cursorStart : Int
  cursorEnd : Int
deriving DecidableEq

/-- Candidate-list pipeline of the `task.onSuccess` closure built by
`Session.prototype.complete` (nel.js lines 991-1014): append the worker's
names, append the reserved words when the scope is the empty string,
filter by the selector prefix when the selector is nonempty (the filter
predicate translates `e.lastIndexOf(expression.selector, 0) === 0`, which
holds exactly when the selector is a prefix of the candidate), and wrap
each candidate in `left = scope + leftOp` and `right = rightOp` when
either is nonempty. -/
def completeCandidates (e : Expression) (names : List (List Char)) : List (List Char) :=
  let matchList1 := if e.scope = [] then names ++ javascriptKeywords else names
  let matchList2 :=
    if e.selector ≠ [] then matchList1.filter (fun c => e.selector.isPrefixOf c)
    else matchList1
  if (e.scope ++ e.leftOp) ≠ [] ∨ e.rightOp ≠ [] then
    matchList2.map (fun c => (e.scope ++ e.leftOp) ++ c ++ e.rightOp)
  else matchList2

/-- Rest of the `task.onSuccess` closure (nel.js lines 1016-1051): compute
the replacement span and assemble the completion record delivered to the
caller's `onSuccess`. -/
def completeOnSuccess (e : Expression) (code : List Char) (cursorPos : Nat)
    (names : List (List Char)) : CompletionResult :=
  let matchList3 := completeCandidates e names
  if matchList3.length > 0 then
    { list := matchList3, code := code, cursorPos := cursorPos,
      matchedText := e.matchedText, cursorStart := jsIndexOf code e.matchedText,
      cursorEnd := advanceCursorEnd code (jsShortest matchList3)
        (jsIndexOf code e.matchedText) }
  else
    { list := matchList3, code := code, cursorPos := cursorPos,
      matchedText := e.matchedText, cursorStart := (cursorPos : Int),
      cursorEnd := (cursorPos : Int) }

/-- Description of a task sent to the worker (action and code). -/
structure JsTaskDescr where
  action : List Char
  code : List Char
deriving DecidableEq

/-- Dispatch decision of `Session.prototype.complete`: `none` when the
parse is `null` (the empty completion is delivered synchronously and the
worker is not engaged); otherwise the internal `getAllPropertyNames` task,
whose code is the expression's scope with the empty scope rewritten to
`"global"`. -/
def completeTask (code : List Char) (cursorPos : Nat) : Option JsTaskDescr :=
  match parseExpression code cursorPos with
  | none => none
  | some e =>
      some { action := "getAllPropertyNames".toList,
             code := if e.scope = [] then "global".toList else e.scope }

/-- Demonstration expression for the C5 witness: the parse of `"se"` at
cursor position 2. -/
def seDemoExpr : Expression :=
  { matchedText := "se".toList, scope := [], leftOp := [],
    selector := "se".toList, rightOp := [] }

/-! ### Property-name enumeration (`lib/server/main.js` lines 184-229)

`getAllPropertyNames` walks the prototype chain of a value.  The Javascript
heap is modelled as an indexed store of object records, each carrying its
own-property names and an optional prototype reference; `Object` identity
(used by `indexOf` on the `prototypeList`) is object-id equality.  The
`while (prototype)` loop is modelled with a fuel parameter counting loop
iterations: `none` means the loop did not terminate within the given number
of iterations (the source loop has no bound, so divergence is `none` for
every fuel). -/

/-- Comparison used by `Array.prototype.sort()` without a comparator on an
array of strings: lexicographic comparison (the engine compares UTF-16
code units; this model compares Unicode scalar values, which agrees on
the Basic Multilingual Plane where property names live). -/
def strLtB : List Char → List Char → Bool
  | _, [] => false
  | [], _ :: _ => true
  | a :: as, b :: bs => if a = b then strLtB as bs else decide (a.val < b.val)

/-- Ordered insertion for `jsSort`. -/
def insertStr (x : List Char) : List (List Char) → List (List Char)
  | [] => [x]
  | y :: ys => if strLtB y x then y :: insertStr x ys else x :: y :: ys

/-- Result of `Object.getOwnPropertyNames(prototype).sort()`: the list
sorted lexicographically.  (The sort result is uniquely determined by the
comparison because equal keys are identical strings, so any sorting
algorithm models the engine's.) -/
def jsSort (l : List (List Char)) : List (List Char) :=
  l.foldr insertStr []

/-- A heap object: its own-property names (in `getOwnPropertyNames` order)
and its prototype (`none` models a `null` prototype). -/
structure ObjRecord where
  ownNames : List (List Char)
  proto : Option Nat
deriving DecidableEq

/-- A Javascript heap for the purposes of `getAllPropertyNames`: the object
store (ids are list indices) and the ids of the three wrapper prototypes
`Boolean.prototype`, `Number.prototype` and `String.prototype`. -/
structure JsHeap where
  objs : List ObjRecord
  booleanProtoId : Nat
  numberProtoId : Nat
  stringProtoId : Nat

/-- Look up an object record; heaps are assumed to contain every referenced
id, and a dangling id behaves as an empty object with a null prototype. -/
def JsHeap.record (h : JsHeap) (i : Nat) : ObjRecord :=
  h.objs.getD i { ownNames := [], proto := none }

/-- Argument values of `getAllPropertyNames`, classified by the `typeof`
tests in the source (lines 196-204): `undefined`, `null`, the three
primitive kinds given wrapper prototypes, and everything else (walked from
the value itself). -/
inductive PropVal where
  | undef
  | jsNull
  | boolVal
  | numVal
  | strVal
  | objVal (i : Nat)
deriving DecidableEq

/-- Translation of the inner `pushToPropertyList` (lines 208-212): append
the name unless it is already present. -/
def pushToPropertyList (acc : List (List Char)) (e : List Char) : List (List Char) :=
  if acc.contains e then acc else acc ++ [e]

/-- Translation of the `while (prototype)` loop (lines 214-226).  Each
iteration sorts the current prototype's own names and appends the new
ones, steps to the prototype's prototype, stops when that is null, and
otherwise records the next prototype in `prototypeList` when it is not
already there — the recorded list is, as in the source, never consulted to
stop the loop. -/
def walkProtoChain (h : JsHeap) : Nat → List (List Char) → List Nat → Nat →
    Option (List (List Char))
  | 0, _, _, _ => none
  | fuel + 1, propertyList, prototypeList, p =>
      let names := jsSort (h.record p).ownNames
      let propertyList1 := names.foldl pushToPropertyList propertyList
      match (h.record p).proto with
      | none => some propertyList1
      | some q =>
          let prototypeList1 :=
            if prototypeList.contains q then prototypeList else prototypeList ++ [q]
          walkProtoChain h fuel propertyList1 prototypeList1 q

/-- Translation of `getAllPropertyNames` (lines 184-229): empty for
`undefined`/`null`; primitives start the walk at the corresponding wrapper
prototype, everything else at the value itself; `prototypeList` starts as
`[prototype]`. -/
def getAllPropertyNames (h : JsHeap) (fuel : Nat) (v : PropVal) :
    Option (List (List Char)) :=
  match v with
  | .undef => some []
  | .jsNull => some []
  | .boolVal => walkProtoChain h fuel [] [h.booleanProtoId] h.booleanProtoId
  | .numVal => walkProtoChain h fuel [] [h.numberProtoId] h.numberProtoId
  | .strVal => walkProtoChain h fuel [] [h.stringProtoId] h.stringProtoId
  | .objVal i => walkProtoChain h fuel [] [i] i

/-- A heap with a cyclic prototype chain (object 0 and object 1 are each
other's prototypes).  Ordinary Javascript objects cannot form such a
chain, but a `Proxy` whose `getPrototypeOf` trap returns another proxy
can. -/
def cyclicHeap : JsHeap :=
  { objs := [ { ownNames := [['a']], proto := some 1 },
              { ownNames := [['b']], proto := some 0 } ],
    booleanProtoId := 0, numberProtoId := 0, stringProtoId := 0 }

/-- A small acyclic heap: object 0 has unsorted names with a duplicate of a
name of its prototype, object 1 is its prototype. -/
def acyclicDemoHeap : JsHeap :=
  { objs := [ { ownNames := [['b'], ['a']], proto := some 1 },
              { ownNames := [['a'], ['c']], proto := none } ],
    booleanProtoId := 0, numberProtoId := 0, stringProtoId := 0 }

/-! ### Default MIME encoder (`lib/server/context.js` lines 433-487)

`defaultMimer` is modelled on a value classified as `undefined`, `null` or
"other".  An "other" value carries the observable behaviour of its
optional `_toMime`/`_toHtml`/`_toSvg`/`_toPng`/`_toJpeg` members (absent
or falsy; called and threw, which the source catches; or returned a value)
and the string `util.inspect` produces for it.  `util.inspect` is a Node
library call treated as total, so the source's defensive `try` around it
never fires in the model.  A MIME bundle is an association list from
content type to payload in insertion order.  Note the source checks the
`_toMime` result with `typeof mime !== "object"`, which `null` passes, and
then evaluates `"text/plain" in mime` OUTSIDE any `try`; a `_toMime`
returning `null` therefore makes `defaultMimer` throw a `TypeError`, which
is modelled as `Except.error`. -/

/-- Outcome of calling a user-supplied method whose exceptions the source
catches: `threw` when the call raised (including a non-callable member),
`ok` with the returned value otherwise. -/
inductive CallResult (α : Type) where
  | threw
  | ok (val : α)
deriving DecidableEq

/-- Outcome of `defaultMimer` itself: a bundle, or an uncaught `TypeError`
(propagated to the worker's request-level `catch`, which turns it into an
error result). -/
inductive MimerOutcome where
  | raised
  | bundle (b : List (List Char × List Char))
deriving DecidableEq

/-- Possible results of calling a user-supplied `_toMime()`:
`null` (`typeof null === "object"`), a value whose `typeof` is not
`"object"` (replaced by `{}`), or a non-null object used as the initial
bundle. -/
inductive MimeRet where
  | retNull
  | retNonObject
  | retBundle (b : List (List Char × List Char))
deriving DecidableEq

/-- Observable behaviour of an "other" (neither `undefined` nor `null`)
value under `defaultMimer`: for each `_to*` member, `none` means the
member is absent or falsy, `some .threw` that calling it threw, and
`some (.ok r)` that it returned `r`; `inspectStr` is `util.inspect` of the
value. -/
structure MimeSource where
  toMimeFn : Option (CallResult MimeRet)
  toHtmlFn : Option (CallResult (List Char))
  toSvgFn : Option (CallResult (List Char))
  toPngFn : Option (CallResult (List Char))
  toJpegFn : Option (CallResult (List Char))
  inspectStr : List Char
deriving DecidableEq

/-- Argument of `defaultMimer`, classified by its first two tests. -/
inductive MimeVal where
  | undef
  | jsNull
  | other (v : MimeSource)
deriving DecidableEq

/-- Key-membership test, `key in bundle`. -/
def bundleHas (b : List (List Char × List Char)) (k : List Char) : Bool :=
  b.any fun kv => kv.1 = k

/-- Bundle lookup, `bundle[key]`. -/
def bundleGet (b : List (List Char × List Char)) (k : List Char) : Option (List Char) :=
  (b.find? fun kv => kv.1 = k).map fun kv => kv.2

/-- The content-type keys used by `defaultMimer`. -/
def mimeKeyTextPlain : List Char := "text/plain".toList

def mimeKeyTextHtml : List Char := "text/html".toList

def mimeKeySvg : List Char := "image/svg+xml".toList

def mimeKeyPng : List Char := "image/png".toList

def mimeKeyJpeg : List Char := "image/jpeg".toList

/-- One of the four trailing steps of `defaultMimer`
(`if (result._toX && !("type" in mime)) { try { mime["type"] = result._toX() } catch {} }`):
when the member exists and the key is absent, call it and add the entry
unless the call threw. -/
def addFormat (b : List (List Char × List Char)) (k : List Char)
    (f : Option (CallResult (List Char))) : List (List Char × List Char) :=
  match f with
  | some r =>
      if !bundleHas b k then
        match r with
        | .ok s => b ++ [(k, s)]
        | .threw => b
      else b
  | none => b

/-- Step `if (!("text/plain" in mime)) { try { mime["text/plain"] = util.inspect(result) } catch {} }`
of `defaultMimer`, with `util.inspect` treated as total. -/
def ensurePlain (v : MimeSource) (b0 : List (List Char × List Char)) :
    List (List Char × List Char) :=
  if !bundleHas b0 mimeKeyTextPlain then b0 ++ [(mimeKeyTextPlain, v.inspectStr)] else b0

/-- Steps of `defaultMimer` after the initial bundle is fixed: add
`text/plain` from `util.inspect` when absent, then the four `_toX`
formats in source order. -/
def finishBundle (v : MimeSource) (b0 : List (List Char × List Char)) :
    List (List Char × List Char) :=
  addFormat
    (addFormat
      (addFormat
        (addFormat (ensurePlain v b0) mimeKeyTextHtml v.toHtmlFn)
        mimeKeySvg v.toSvgFn)
      mimeKeyPng v.toPngFn)
    mimeKeyJpeg v.toJpegFn

/-- Translation of `defaultMimer` (context.js lines 433-487). -/
def defaultMimer : MimeVal → MimerOutcome
  | .undef => .bundle [(mimeKeyTextPlain, "undefined".toList)]
  | .jsNull => .bundle [(mimeKeyTextPlain, "null".toList)]
  | .other v =>
      match v.toMimeFn with
      | some (.ok .retNull) => .raised
      | some (.ok .retNonObject) => .bundle (finishBundle v [])
      | some (.ok (.retBundle b)) => .bundle (finishBundle v b)
      | some .threw => .bundle (finishBundle v [])
      | none => .bundle (finishBundle v [])

/-- A value whose `_toMime()` returns `null`: the C8 counterexample. -/
def toMimeNullSource : MimeSource :=
  { toMimeFn := some (.ok .retNull), toHtmlFn := none, toSvgFn := none,
    toPngFn := none, toJpegFn := none, inspectStr := "[custom]".toList }

/-- A value whose `_toMime()` returns a bundle without `text/plain`: used
by the C8 witness. -/
def toMimeHtmlSource : MimeSource :=
  { toMimeFn := some (.ok (.retBundle [(mimeKeyTextHtml, "<b>x</b>".toList)])),
    toHtmlFn := none, toSvgFn := none, toPngFn := none, toJpegFn := none,
    inspectStr := "inspected".toList }

/-! ### Session controller (`lib/nel.js` lines 103-196, 590-864, 1232-1239)

The controller is a state machine over the session's mutable fields
(`_tasks`, `_currentTask`, `_contextTable`, `_displayTable`,
`_lastContextId`, `_lastTask`, `_status`).  Tasks live in an arena and are
referred to by index; the environment maps a task index to its record
(action, code and which callbacks are present) and to the outcome of the
optional code-transform on it.  Executing a step returns the new state and
the ordered list of observable events: callback invocations and frames
sent to the worker.

`_onMessage`, `_runNext` and `_runNow` call one another: `_onMessage` may
finish the current task and call `_runNext`, which pops the queue and
calls `_runNow`, which on a throwing (or, for a deferred transform,
rejecting) transform synthesises an error message and feeds it back to
`_onMessage`.  Every pass through `_runNext` consumes one queued task, so
the recursion depth is bounded by the queue length; the step function is
written with an explicit fuel of `3 * queue length + 3`, one unit per
phase (`_runNow`, `_onMessage`, `_runNext`) and per task, which is always
sufficient (`goF_fuel_irrel` below shows the result does not depend on the
fuel once it is at least `fuelNeed`).  A deferred transform's settlement
is modelled as happening with no other IPC message interleaved. -/

/-- Worker status (`_status`). -/
inductive WStatus where
  | starting
  | online
  | dead
deriving DecidableEq

/-- Task action (`task.action`). -/
inductive TaskAction where
  | run
  | inspect
  | getAllPropertyNames
deriving DecidableEq

/-- A task record: its action, code, and which optional callbacks were
supplied. -/
structure TaskRec where
  action : TaskAction
  code : List Char
  hasOnSuccess : Bool
  hasOnError : Bool
  hasBeforeRun : Bool
  hasAfterRun : Bool
  hasOnStdout : Bool
  hasOnStderr : Bool
  hasOnDisplay : Bool
  hasOnRequest : Bool
deriving DecidableEq

/-- The raw error value seen by `sendError` in `_runNow`: its `name`,
`message` and `stack` members (each `none` when absent or falsy, matching
the truthiness tests in the source), together with the strings `typeof
error` and `util.inspect(error)` used as fallbacks. -/
structure JsErr where
  name : Option (List Char)
  message : Option (List Char)
  stack : Option (List Char)
  typeofStr : List Char
  inspectStr : List Char
deriving DecidableEq

/-- Outcome of applying the installed code-transform (`this.transpile`) to
a task's code: a plain string, a deferred that fulfills with a string, a
deferred that rejects, or a synchronous throw. -/
inductive TranspileOutcome where
  | value (code : List Char)
  | promiseOk (code : List Char)
  | promiseErr (e : JsErr)
  | throwErr (e : JsErr)
deriving DecidableEq

/-- The `traceback` field of a formatted error: `error.stack.split("\n")`
when the stack is truthy, and the empty string otherwise (the source
really produces a string there, not an empty array). -/
inductive Traceback where
  | lines (ls : List (List Char))
  | emptyStr
deriving DecidableEq

/-- Formatted error record `{ename, evalue, traceback}` as built
identically by `sendError` in `_runNow` (nel.js lines 805-816) and by
`formatError` in the worker (context.js lines 415-424). -/
structure ErrRecord where
  ename : List Char
  evalue : List Char
  traceback : Traceback
deriving DecidableEq

/-- Split a string at newline characters (`String.prototype.split("\n")`). -/
def splitOnNewline (s : List Char) : List (List Char) :=
  s.splitOn '\n'

def formatError (e : JsErr) : ErrRecord :=
  { ename := e.name.getD e.typeofStr
    evalue := e.message.getD e.inspectStr
    traceback := match e.stack with
      | some s => .lines (splitOnNewline s)
      | none => .emptyStr }

/-- Display-message payloads (`message.display`). -/
inductive DisplayPayload where
  | dOpen (dispId : List Char)
  | dMime (dispId : Option (List Char)) (mime : List (List Char × List Char))
  | dClose (dispId : List Char)
deriving DecidableEq

/-- Success-message payloads (`mime`, `names` or `inspection` results; the
controller treats any non-error result message uniformly). -/
inductive SuccessBody where
  | mimeBody (b : List (List Char × List Char))
  | namesBody (ns : List (List Char))
  | inspectionBody (s : List Char)
deriving DecidableEq

/-- Message payloads, mirroring the closed message vocabulary of the wire
protocol; the handler's `hasOwnProperty` precedence collapses onto this
classification.  (The worker only ever reports the status `"online"`.) -/
inductive Payload where
  | log (s : List Char)
  | statusOnline
  | display (d : DisplayPayload)
  | request (isClear : Bool) (reqId : Option Nat)
  | stdout (data : List Char)
  | stderr (data : List Char)
  | errorMsg (e : ErrRecord)
  | successMsg (r : SuccessBody)
deriving DecidableEq

/-- An inbound message: the optional context id, the optional `end` flag
and the payload. -/
structure SessionMsg where
  id : Option Nat
  endFlag : Bool
  payload : Payload
deriving DecidableEq

/-- Payloads that reach the context-resolution step of `_onMessage` (all
but `log`, `status` and `display`, which return earlier). -/
def payloadUsesContext : Payload → Bool
  | .request _ _ => true
  | .stdout _ => true
  | .stderr _ => true
  | .errorMsg _ => true
  | .successMsg _ => true
  | _ => false

/-- Observable events of a controller step: callback invocations and
frames sent to the worker. -/
inductive Event where
  | beforeRunEv (t : Nat)
  | afterRunEv (t : Nat)
  | onSuccessEv (t : Nat) (r : SuccessBody)
  | onErrorEv (t : Nat) (e : ErrRecord)
  | onStdoutEv (t : Nat) (d : List Char)
  | onStderrEv (t : Nat) (d : List Char)
  | onDisplayEv (t : Nat) (d : DisplayPayload)
  | onRequestEv (t : Nat) (isClear : Bool)
  | sendToWorker (action : TaskAction) (code : List Char) (ctxId : Nat)
deriving DecidableEq

/-- Controller state: the queue `_tasks`, the in-flight slot
`_currentTask`, the context table, the display table, `_lastContextId`,
the last-task slot and the worker status. -/
structure SessionState where
  tasks : List Nat
  currentTask : Option Nat
  contextTable : List (Nat × Nat)
  displayTable : List (List Char × Nat)
  lastContextId : Nat
  lastTask : Option Nat
  status : WStatus
deriving DecidableEq

/-- Environment: the task arena and the code-transform configuration
(`none` when no transform is installed; otherwise the per-task outcome). -/
structure SessionEnv where
  taskOf : Nat → TaskRec
  hasTranspile : Bool
  transpileOf : Nat → TranspileOutcome

/-- State of a freshly constructed `Session` (nel.js lines 103-196):
empty queue and tables, no current or last task, id counter `0`, status
`"starting"`.  `Session.prototype.restart` re-runs the constructor on the
same object, so this is also the state just after a restart. -/
def initialState : SessionState :=
  { tasks := [], currentTask := none, contextTable := [], displayTable := [],
    lastContextId := 0, lastTask := none, status := .starting }

/-- Javascript object-property lookup on the context table with a possibly
undefined key (`this._contextTable[contextId]`). -/
def ctxGet (tbl : List (Nat × Nat)) : Option Nat → Option Nat
  | none => none
  | some k => (tbl.find? fun kv => kv.1 == k).map fun kv => kv.2

/-- Assignment `this._contextTable[id] = task` (replace or append). -/
def ctxSet (tbl : List (Nat × Nat)) (k t : Nat) : List (Nat × Nat) :=
  if tbl.any fun kv => kv.1 == k then
    tbl.map fun kv => if kv.1 == k then (k, t) else kv
  else tbl ++ [(k, t)]

/-- Deletion `delete this._contextTable[contextId]` (no-op on an undefined
key). -/
def ctxDelete (tbl : List (Nat × Nat)) : Option Nat → List (Nat × Nat)
  | none => tbl
  | some k => tbl.filter fun kv => kv.1 != k

/-- Display-table lookup. -/
def dtblGet (tbl : List (List Char × Nat)) (k : List Char) : Option Nat :=
  (tbl.find? fun kv => kv.1 == k).map fun kv => kv.2

/-- Display-table assignment. -/
def dtblSet (tbl : List (List Char × Nat)) (k : List Char) (t : Nat) :
    List (List Char × Nat) :=
  if tbl.any fun kv => kv.1 == k then
    tbl.map fun kv => if kv.1 == k then (k, t) else kv
  else tbl ++ [(k, t)]

/-- Display-table deletion. -/
def dtblDelete (tbl : List (List Char × Nat)) (k : List Char) :
    List (List Char × Nat) :=
  tbl.filter fun kv => kv.1 != k

/-- Context resolution of `_onMessage` (nel.js lines 668-683):
`this._contextTable[contextId]`, falling back to `this._lastTask`. -/
def resolveContextTask (s : SessionState) (cid : Option Nat) : Option Nat :=
  match ctxGet s.contextTable cid with
  | some t => some t
  | none => s.lastTask

/-- Display-message handling of `_onMessage` (nel.js lines 620-666); all
three display cases return without reaching the context-resolution step. -/
def handleDisplay (env : SessionEnv) (s : SessionState) (cid : Option Nat) :
    DisplayPayload → SessionState × List Event
  | .dOpen dispId =>
      match resolveContextTask s cid with
      | some t =>
          if (env.taskOf t).hasOnDisplay then
            ({ s with displayTable := dtblSet s.displayTable dispId t }, [])
          else (s, [])
      | none => (s, [])
  | .dMime dispIdOpt mb =>
      (s, match (match dispIdOpt with
                 | some dId =>
                     match dtblGet s.displayTable dId with
                     | some t => some t
                     | none => s.lastTask
                 | none => resolveContextTask s cid) with
          | some t =>
              if (env.taskOf t).hasOnDisplay then
                [Event.onDisplayEv t (DisplayPayload.dMime dispIdOpt mb)]
              else []
          | none => [])
  | .dClose dispId => ({ s with displayTable := dtblDelete s.displayTable dispId }, [])

/-- The message `_runNow`'s `sendError` synthesises and feeds to
`this._onMessage` (nel.js lines 805-816): an error record with NO context
id and NO `end` flag. -/
def synthErrorMsg (e : JsErr) : SessionMsg :=
  { id := none, endFlag := false, payload := .errorMsg (formatError e) }

/-- State update of `_runNow` (nel.js lines 786-795): allocate the next
id, set the current and last task slots, bump `_lastContextId` and record
the task in the context table. -/
def runNowState (s : SessionState) (t : Nat) : SessionState :=
  { s with currentTask := some t, lastTask := some t,
           lastContextId := s.lastContextId + 1,
           contextTable := ctxSet s.contextTable (s.lastContextId + 1) t }

/-- Jobs of the combined step function: handle an inbound message
(`_onMessage`), pop and run the next queued task (`_runNext`), or run a
given task now (`_runNow`). -/
inductive Job where
  | handle (m : SessionMsg)
  | next
  | now (t : Nat)
deriving DecidableEq

/-- Phase rank used by the fuel bound. -/
def jobRank : Job → Nat
  | .now _ => 2
  | .handle _ => 1
  | .next => 0

/-- Fuel needed by `goF` on a given state and job. -/
def fuelNeed (s : SessionState) (job : Job) : Nat :=
  3 * s.tasks.length + jobRank job + 1

/-- Fuelled combined step function for `_onMessage` / `_runNext` /
`_runNow`.  Each recursive call moves to a strictly smaller
`(queue length, phase rank)`, so `fuelNeed` fuel always suffices; on
exhausted fuel the function returns the state unchanged (never reached
from `go`, see `goF_fuel_irrel`). -/
def goF (env : SessionEnv) : Nat → SessionState → Job → SessionState × List Event
  | 0, s, _ => (s, [])
  | fuel + 1, s, job =>
      match job with
      | .handle m =>
          match m.payload with
          | .log _ => (s, [])
          | .statusOnline => goF env fuel { s with status := .online } .next
          | .display d => handleDisplay env s m.id d
          | .request isClear _ =>
              (s, match resolveContextTask s m.id with
                  | none => []
                  | some t =>
                      if (env.taskOf t).hasOnRequest then [Event.onRequestEv t isClear]
                      else [])
          | .stdout dat =>
              (s, match resolveContextTask s m.id with
                  | none => []
                  | some t =>
                      if (env.taskOf t).hasOnStdout then [Event.onStdoutEv t dat]
                      else [])
          | .stderr dat =>
              (s, match resolveContextTask s m.id with
                  | none => []
                  | some t =>
                      if (env.taskOf t).hasOnStderr then [Event.onStderrEv t dat]
                      else [])
          | .errorMsg e =>
              match resolveContextTask s m.id with
              | none => (s, [])
              | some t =>
                  let ev1 := if (env.taskOf t).hasOnError then [Event.onErrorEv t e] else []
                  let ctbl := if m.endFlag then ctxDelete s.contextTable m.id
                              else s.contextTable
                  let ev2 := if m.endFlag && (env.taskOf t).hasAfterRun then
                               [Event.afterRunEv t]
                             else []
                  if s.currentTask = some t then
                    let r := goF env fuel
                      { s with contextTable := ctbl, currentTask := none } .next
                    (r.1, ev1 ++ ev2 ++ r.2)
                  else ({ s with contextTable := ctbl }, ev1 ++ ev2)
          | .successMsg res =>
              match resolveContextTask s m.id with
              | none => (s, [])
              | some t =>
                  let ev1 := if (env.taskOf t).hasOnSuccess then [Event.onSuccessEv t res]
                             else []
                  let ctbl := if m.endFlag then ctxDelete s.contextTable m.id
                              else s.contextTable
                  let ev2 := if m.endFlag && (env.taskOf t).hasAfterRun then
                               [Event.afterRunEv t]
                             else []
                  if s.currentTask = some t then
                    let r := goF env fuel
                      { s with contextTable := ctbl, currentTask := none } .next
                    (r.1, ev1 ++ ev2 ++ r.2)
                  else ({ s with contextTable := ctbl }, ev1 ++ ev2)
      | .next =>
          match s.tasks with
          | [] => (s, [])
          | t :: rest => goF env fuel { s with tasks := rest } (.now t)
      | .now t =>
          let i := s.lastContextId + 1
          let s1 := runNowState s t
          let evB := if (env.taskOf t).hasBeforeRun then [Event.beforeRunEv t] else []
          if env.hasTranspile && ((env.taskOf t).action == TaskAction.run) then
            match env.transpileOf t with
            | .value c => (s1, evB ++ [Event.sendToWorker (env.taskOf t).action c i])
            | .promiseOk c => (s1, evB ++ [Event.sendToWorker (env.taskOf t).action c i])
            | .throwErr e =>
                let r := goF env fuel s1 (.handle (synthErrorMsg e))
                (r.1, evB ++ r.2)
            | .promiseErr e =>
                let r := goF env fuel s1 (.handle (synthErrorMsg e))
                (r.1, evB ++ r.2)
          else (s1, evB ++ [Event.sendToWorker (env.taskOf t).action (env.taskOf t).code i])

/-- The combined step function with its canonical (always sufficient)
fuel. -/
def go (env : SessionEnv) (s : SessionState) (job : Job) : SessionState × List Event :=
  goF env (3 * s.tasks.length + 3) s job

/-- Translation of `Session.prototype._run` (nel.js lines 772-778): run
now when online and idle; enqueue when not dead; otherwise drop. -/
def runTask (env : SessionEnv) (s : SessionState) (t : Nat) : SessionState × List Event :=
  if s.status = .online ∧ s.currentTask = none then go env s (.now t)
  else if s.status ≠ .dead then ({ s with tasks := s.tasks ++ [t] }, [])
  else (s, [])

/-- Operations of a controller-lifetime driver for the id-monotonicity
claim: dispatch a task through `_runNow`, or restart the session
(`Session.prototype.restart` kills the worker and re-runs the `Session`
constructor on the same object, nel.js lines 1232-1239). -/
inductive SessionOp where
  | dispatch (t : Nat)
  | restartOp
deriving DecidableEq

/-- Context ids assigned over a sequence of operations: each dispatch is
assigned `_lastContextId + 1` by `_runNow` (nel.js line 787), and a
restart re-initialises the state (in particular `_lastContextId := 0`). -/
def issuedIds (env : SessionEnv) : SessionState → List SessionOp → List Nat
  | _, [] => []
  | s, SessionOp.dispatch t :: rest =>
      (s.lastContextId + 1) :: issuedIds env (go env s (.now t)).1 rest
  | _, SessionOp.restartOp :: rest => issuedIds env initialState rest

/-- Boolean test that a list of naturals is strictly increasing. -/
def strictlyIncreasing : List Nat → Bool
  | [] => true
  | [_] => true
  | a :: b :: rest => decide (a < b) && strictlyIncreasing (b :: rest)

/-- A run task supplying every callback. -/
def demoTaskRun : TaskRec :=
  { action := .run, code := "1+1".toList, hasOnSuccess := true, hasOnError := true,
    hasBeforeRun := true, hasAfterRun := true, hasOnStdout := true,
    hasOnStderr := true, hasOnDisplay := true, hasOnRequest := true }

/-- An environment with no code-transform installed. -/
def plainEnv : SessionEnv :=
  { taskOf := fun _ => demoTaskRun, hasTranspile := false,
    transpileOf := fun _ => .value [] }

/-- An online, idle session. -/
def sessionOnlineIdle : SessionState :=
  { tasks := [], currentTask := none, contextTable := [], displayTable := [],
    lastContextId := 0, lastTask := none, status := .online }

/-- A dead session. -/
def sessionDead : SessionState :=
  { tasks := [], currentTask := none, contextTable := [], displayTable := [],
    lastContextId := 3, lastTask := none, status := .dead }

/-- A busy online session (a task in flight). -/
def sessionBusy : SessionState :=
  { tasks := [], currentTask := some 5, contextTable := [(1, 5)], displayTable := [],
    lastContextId := 1, lastTask := some 5, status := .online }

/-- The error with which the demo code-transform's deferred rejects. -/
def rejectErr : JsErr :=
  { name := some "Error".toList, message := some "boom".toList,
    stack := some ("Error: boom\n  at transform".toList),
    typeofStr := "object".toList, inspectStr := "Error: boom".toList }

/-- The task whose transform rejects (task 0 of the C2 scenario). -/
def transpileErrTask : TaskRec :=
  { action := .run, code := "x".toList, hasOnSuccess := true, hasOnError := true,
    hasBeforeRun := true, hasAfterRun := true, hasOnStdout := true,
    hasOnStderr := true, hasOnDisplay := true, hasOnRequest := true }

/-- The queued task behind it (task 1 of the C2 scenario). -/
def queuedDemoTask : TaskRec :=
  { action := .run, code := "y".toList, hasOnSuccess := true, hasOnError := true,
    hasBeforeRun := true, hasAfterRun := true, hasOnStdout := true,
    hasOnStderr := true, hasOnDisplay := true, hasOnRequest := true }

/-- Environment of the C2 scenario: a transform is installed; on task 0 its
deferred rejects with `rejectErr`, on task 1 it yields a plain string. -/
def transpileDemoEnv : SessionEnv :=
  { taskOf := fun t => if t == 0 then transpileErrTask else queuedDemoTask,
    hasTranspile := true,
    transpileOf := fun t =>
      if t == 0 then .promiseErr rejectErr else .value "y2".toList }

/-- State of the C2 scenario at the moment task 0 is run: online, idle,
task 1 queued behind it. -/
def transpileDemoState : SessionState :=
  { tasks := [1], currentTask := none, contextTable := [], displayTable := [],
    lastContextId := 0, lastTask := none, status := .online }

/-- The C10 demonstration message: a stdout chunk with `end` set, carrying
a context id that is in no table. -/
def unknownCtxMsg : SessionMsg :=
  { id := some 7, endFlag := true, payload := .stdout "hi".toList }

/-! ### Theorems -/

theorem ctxSendAll_done (ms : List WorkerMsg) (c : WorkerCtx) (h : c.done = true) :
    ctxSendAll c ms = (c, []) := by
  induction ms with
  | nil => rfl
  | cons m rest ih =>
      simp only [ctxSendAll, ctxSend, h, if_true]
      simp [ih]

theorem ctxSendAll_spec (c : WorkerCtx) (ms : List WorkerMsg) :
    endOnlyFinal (ctxSendAll c ms).2 = true ∧
    (ctxSendAll c ms).2.countP (fun x => x.endFlag) ≤ 1 ∧
    (ctxSendAll c ms).1.done = (c.done || ms.any fun x => x.endFlag) := by
  induction ms generalizing c with
  | nil =>
      simp [ctxSendAll, endOnlyFinal]
  | cons m rest ih =>
      by_cases hd : c.done = true
      · rw [ctxSendAll_done _ _ hd]
        simp [endOnlyFinal, hd]
      · have hd' : c.done = false := by
          revert hd; cases c.done <;> simp
        by_cases he : m.endFlag = true
        · have hstep : ctxSend c m = ({ c with done := true, async := false }, some m) := by
            simp [ctxSend, hd', he]
          have hrest : ctxSendAll { c with done := true, async := false } rest =
              ({ c with done := true, async := false }, []) :=
            ctxSendAll_done rest _ rfl
          simp [ctxSendAll, hstep, hrest, endOnlyFinal, he, hd', List.countP_cons]
        · have he' : m.endFlag = false := by
            revert he; cases m.endFlag <;> simp
          have hstep : ctxSend c m = (c, some m) := by
            simp [ctxSend, hd', he']
          obtain ⟨ih1, ih2, ih3⟩ := ih c
          simp only [ctxSendAll, hstep]
          refine ⟨?_, ?_, ?_⟩
          · simpa [endOnlyFinal, he'] using ih1
          · simpa [List.countP_cons, he'] using ih2
          · simpa [he', hd'] using ih3

/-- Claim C1: for every worker-side execution context, at most one message
carrying `end = true` is ever transmitted by `Context.prototype.send`;
once a message with `end` set has been sent the context's `done` flag is
true, and any further `send` on a done context (whatever the message
kind) is dropped instead of being transmitted. -/
theorem claim_C1_send_single_terminal (c : WorkerCtx) (ms : List WorkerMsg) (m : WorkerMsg) :
    endOnlyFinal (ctxSendAll c ms).2 = true ∧
    (ctxSendAll c ms).2.countP (fun x => x.endFlag) ≤ 1 ∧
    (ctxSendAll c ms).1.done = (c.done || ms.any fun x => x.endFlag) ∧
    (c.done = true → ctxSend c m = (c, none)) := by
  obtain ⟨h1, h2, h3⟩ := ctxSendAll_spec c ms
  refine ⟨h1, h2, h3, fun hdone => ?_⟩
  simp [ctxSend, hdone]

/-- Witness for C1 at a concrete context and message trace: starting from a
fresh context, a terminal message followed by two further messages
transmits only the terminal message, and a send on the done context is
dropped. -/
theorem claim_C1_witness :
    endOnlyFinal (ctxSendAll ⟨false, false⟩
      [⟨.resultMsg, true⟩, ⟨.streamMsg, false⟩, ⟨.errorMsg, true⟩]).2 = true ∧
    ctxSend ⟨true, false⟩ ⟨.mimeMsg, false⟩ = (⟨true, false⟩, none) := by
  refine ⟨(claim_C1_send_single_terminal ⟨false, false⟩ _ ⟨.mimeMsg, false⟩).1, ?_⟩
  exact (claim_C1_send_single_terminal ⟨true, false⟩ [] ⟨.mimeMsg, false⟩).2.2.2 rfl

/-- Congruence for `List.any` under a pointwise-equal predicate. -/
theorem listAnyCongr {α : Type} {p q : α → Bool} (l : List α)
    (h : ∀ a ∈ l, p a = q a) : l.any p = l.any q := by
  induction l with
  | nil => rfl
  | cons a t ih =>
      simp only [List.any_cons, h a (by simp)]
      rw [ih (fun b hb => h b (by simp [hb]))]

theorem segsMatchF_congr :
    ∀ f1 f2 s, s.length ≤ f1 → s.length ≤ f2 → segsMatchF f1 s = segsMatchF f2 s := by
  intro f1
  induction f1 with
  | zero =>
      intro f2 s h1 _
      have hs : s = [] := by
        cases s with
        | nil => rfl
        | cons a t => simp at h1
      subst hs
      cases f2 <;> simp [segsMatchF]
  | succ n ih =>
      intro f2 s h1 h2
      cases f2 with
      | zero =>
          have hs : s = [] := by
            cases s with
            | nil => rfl
            | cons a t => simp at h2
          subst hs
          simp [segsMatchF]
      | succ m =>
          simp only [segsMatchF]
          congr 1
          apply listAnyCongr
          intro k hk
          have hklt : k < s.length := List.mem_range.mp hk
          have hdrop : (s.drop (k + 1)).length ≤ n := by
            simp only [List.length_drop]
            omega
          have hdrop2 : (s.drop (k + 1)).length ≤ m := by
            simp only [List.length_drop]
            omega
          rw [ih m (s.drop (k + 1)) hdrop hdrop2]

/-- Unfolding equation for `segsMatch` showing that the fuel in
`segsMatchF` is transparent. -/
theorem segsMatch_unfold (s : List Char) :
    segsMatch s =
      (s.isEmpty ||
       ((List.range s.length).any fun k =>
         isSegOk (s.take (k + 1)) && segsMatch (s.drop (k + 1)))) := by
  cases s with
  | nil => simp [segsMatch, segsMatchF]
  | cons a t =>
      show segsMatchF (t.length + 1) (a :: t) = _
      simp only [segsMatchF, segsMatch]
      congr 1
      apply listAnyCongr
      intro k hk
      have hklt : k < (a :: t).length := List.mem_range.mp hk
      have h1 : ((a :: t).drop (k + 1)).length ≤ t.length := by
        simp only [List.length_drop, List.length_cons]
        omega
      rw [segsMatchF_congr t.length ((a :: t).drop (k + 1)).length _ h1 le_rfl]

theorem lcpLen_le_right : ∀ (a b : List Char), lcpLen a b ≤ b.length := by
  intro a
  induction a with
  | nil => intro b; cases b <;> simp [lcpLen]
  | cons c as ih =>
      intro b
      cases b with
      | nil => simp [lcpLen]
      | cons d bs =>
          by_cases h : c = d
          · simpa [lcpLen, h] using ih bs
          · simp [lcpLen, h]

theorem advanceCursorEnd_eq_lcp (code : List Char) :
    ∀ (rest : List Char) (ce : Int), 0 ≤ ce →
      advanceCursorEnd code rest ce = ce + lcpLen rest (code.drop ce.toNat) := by
  intro rest
  induction rest with
  | nil =>
      intro ce _
      have h0 : lcpLen [] (code.drop ce.toNat) = 0 := by
        cases code.drop ce.toNat <;> rfl
      simp [advanceCursorEnd, h0]
  | cons c rest ih =>
      intro ce hce
      by_cases hlt : ce < (code.length : Int)
      · have hn : ce.toNat < code.length := by omega
        have hdrop : code.drop ce.toNat = code[ce.toNat] :: code.drop (ce.toNat + 1) :=
          List.drop_eq_getElem_cons hn
        have hat : jsCharAt code ce = some code[ce.toNat] := by
          simp only [jsCharAt, if_neg (by omega : ¬ce < 0)]
          exact List.getElem?_eq_getElem hn
        rw [hdrop]
        by_cases heq : c = code[ce.toNat]
        · have h1 : jsCharAt code ce = some c := by rw [hat, heq]
          have htn : (ce + 1).toNat = ce.toNat + 1 := by omega
          simp only [advanceCursorEnd, if_pos hlt, h1, if_pos rfl]
          rw [ih (ce + 1) (by omega), htn]
          simp only [lcpLen, if_pos heq]
          push_cast
          ring
        · have h1 : ¬jsCharAt code ce = some c := by
            rw [hat]
            simpa using fun hh => heq hh.symm
          simp only [advanceCursorEnd, if_pos hlt, if_neg h1, lcpLen, if_neg heq]
          simp
      · have hdrop : code.drop ce.toNat = [] := by
          apply List.drop_eq_nil_of_le
          omega
        simp [advanceCursorEnd, hlt, hdrop, lcpLen]

theorem jsIndexOf_le_length (s pat : List Char) : jsIndexOf s pat ≤ (s.length : Int) := by
  unfold jsIndexOf
  split
  · next i h =>
      have := List.mem_range.mp (List.mem_of_find?_eq_some h)
      omega
  · omega

theorem jsIndexOf_nonneg_of_substring {s pat : List Char} (h : pat <:+: s) :
    0 ≤ jsIndexOf s pat := by
  obtain ⟨u, v, huv⟩ := h
  have hp : pat.isPrefixOf (s.drop u.length) = true := by
    have hd : s.drop u.length = pat ++ v := by
      rw [← huv, List.append_assoc, List.drop_left]
    rw [hd]
    exact List.isPrefixOf_iff_prefix.mpr ⟨v, rfl⟩
  have hlen : u.length < s.length + 1 := by
    have : u.length ≤ s.length := by
      rw [← huv, List.length_append, List.length_append]
      omega
    omega
  have hsome : ((List.range (s.length + 1)).find? fun i =>
      pat.isPrefixOf (s.drop i)).isSome := by
    rw [List.find?_isSome]
    exact ⟨u.length, List.mem_range.mpr hlen, hp⟩
  unfold jsIndexOf
  split
  · omega
  · next hnone => rw [hnone] at hsome; simp at hsome

theorem parseExpression_matchedText_substring {code : List Char} {p : Nat} {e : Expression}
    (h : parseExpression code p = some e) : e.matchedText <:+: code := by
  have hinf : ∀ i, ((code.take p).drop i) <:+: code := fun i =>
    ((List.drop_suffix i (code.take p)).isInfix).trans ((List.take_prefix p code).isInfix)
  simp only [parseExpression] at h
  split at h
  · cases h; exact List.nil_infix
  · split at h
    · cases h; exact hinf _
    · split at h
      · cases h; exact hinf _
      · split at h
        · cases h; exact hinf _
        · cases h

theorem completeFilterSkip (sel : List Char) (l : List (List Char)) (h : ¬sel ≠ []) :
    l.filter (fun c => sel.isPrefixOf c) = l := by
  push_neg at h
  subst h
  have hall : ∀ c : List Char, ([] : List Char).isPrefixOf c = true := fun c =>
    List.isPrefixOf_iff_prefix.mpr ⟨c, rfl⟩
  simp [hall]

theorem completeMapSkip (sc lo ro : List Char) (l : List (List Char))
    (h : ¬(sc ++ lo ≠ [] ∨ ro ≠ [])) :
    l.map (fun c => (sc ++ lo) ++ c ++ ro) = l := by
  push_neg at h
  obtain ⟨h1, h2⟩ := h
  obtain ⟨hsc, hlo⟩ := List.append_eq_nil.mp h1
  subst hsc; subst hlo; subst h2
  simp

theorem completeCandidates_eq (e : Expression) (names : List (List Char)) :
    completeCandidates e names =
      ((names ++ if e.scope = [] then javascriptKeywords else []).filter
        (fun c => e.selector.isPrefixOf c)).map
        (fun c => e.scope ++ e.leftOp ++ c ++ e.rightOp) := by
  obtain ⟨mt, sc, lo, sel, ro⟩ := e
  show (if (sc ++ lo) ≠ [] ∨ ro ≠ [] then
      (if sel ≠ [] then
        (if sc = [] then names ++ javascriptKeywords else names).filter
          (fun c => sel.isPrefixOf c)
       else (if sc = [] then names ++ javascriptKeywords else names)).map
        (fun c => (sc ++ lo) ++ c ++ ro)
     else
      (if sel ≠ [] then
        (if sc = [] then names ++ javascriptKeywords else names).filter
          (fun c => sel.isPrefixOf c)
       else (if sc = [] then names ++ javascriptKeywords else names))) =
    ((names ++ if sc = [] then javascriptKeywords else []).filter
      (fun c => sel.isPrefixOf c)).map (fun c => sc ++ lo ++ c ++ ro)
  have hbase : (if sc = [] then names ++ javascriptKeywords else names) =
      names ++ (if sc = [] then javascriptKeywords else []) := by
    by_cases h : sc = [] <;> simp [h]
  rw [hbase]
  by_cases hmap : (sc ++ lo) ≠ [] ∨ ro ≠ []
  · rw [if_pos hmap]
    by_cases hsel : sel ≠ []
    · rw [if_pos hsel]
    · rw [if_neg hsel, completeFilterSkip _ _ hsel]
  · rw [if_neg hmap, completeMapSkip _ _ _ _ hmap]
    by_cases hsel : sel ≠ []
    · rw [if_pos hsel]
    · rw [if_neg hsel, completeFilterSkip _ _ hsel]

/-- Claim C5: given a non-null parsed expression, the delivered completion's
list is the worker's name list, unioned with the Javascript reserved-word
list exactly when the scope is empty, filtered to the candidates having
the selector as a prefix, and each surviving candidate wrapped in
`scope ++ leftOp` on the left and `rightOp` on the right; when the list is
nonempty, `cursorStart` is the index of `matchedText` in `code` and
`cursorEnd` advances from there through the longest common prefix of the
code tail and the shortest candidate, bounded by the code length; when the
list is empty both span ends equal `cursorPos`. -/
theorem claim_C5_completion_postprocessing (code : List Char) (cursorPos : Nat)
    (names : List (List Char)) (e : Expression)
    (hp : parseExpression code cursorPos = some e) :
    (completeOnSuccess e code cursorPos names).list =
        ((names ++ if e.scope = [] then javascriptKeywords else []).filter
          (fun c => e.selector.isPrefixOf c)).map
          (fun c => e.scope ++ e.leftOp ++ c ++ e.rightOp) ∧
    (completeOnSuccess e code cursorPos names).code = code ∧
    (completeOnSuccess e code cursorPos names).cursorPos = cursorPos ∧
    (completeOnSuccess e code cursorPos names).matchedText = e.matchedText ∧
    ((completeOnSuccess e code cursorPos names).list ≠ [] →
        (completeOnSuccess e code cursorPos names).cursorStart =
            jsIndexOf code e.matchedText ∧
        0 ≤ (completeOnSuccess e code cursorPos names).cursorStart ∧
        (completeOnSuccess e code cursorPos names).cursorEnd =
          (completeOnSuccess e code cursorPos names).cursorStart +
            lcpLen (jsShortest (completeOnSuccess e code cursorPos names).list)
              (code.drop (completeOnSuccess e code cursorPos names).cursorStart.toNat) ∧
        (completeOnSuccess e code cursorPos names).cursorEnd ≤ (code.length : Int)) ∧
    ((completeOnSuccess e code cursorPos names).list = [] →
        (completeOnSuccess e code cursorPos names).cursorStart = (cursorPos : Int) ∧
        (completeOnSuccess e code cursorPos names).cursorEnd = (cursorPos : Int)) := by
  have hstart0 : 0 ≤ jsIndexOf code e.matchedText :=
    jsIndexOf_nonneg_of_substring (parseExpression_matchedText_substring hp)
  have hstartLen : jsIndexOf code e.matchedText ≤ (code.length : Int) :=
    jsIndexOf_le_length code e.matchedText
  have hadv := advanceCursorEnd_eq_lcp code (jsShortest (completeCandidates e names))
    (jsIndexOf code e.matchedText) hstart0
  have hlcp := lcpLen_le_right (jsShortest (completeCandidates e names))
    (code.drop (jsIndexOf code e.matchedText).toNat)
  simp only [List.length_drop] at hlcp
  unfold completeOnSuccess
  by_cases hlen : (completeCandidates e names).length > 0
  · rw [if_pos hlen]
    refine ⟨completeCandidates_eq e names, rfl, rfl, rfl,
      fun _ => ⟨rfl, hstart0, hadv, ?_⟩,
      fun hnil => absurd hnil ?_⟩
    · show advanceCursorEnd code (jsShortest (completeCandidates e names))
          (jsIndexOf code e.matchedText) ≤ (code.length : Int)
      rw [hadv]
      omega
    · simpa using List.length_pos.mp hlen
  · rw [if_neg hlen]
    refine ⟨completeCandidates_eq e names, rfl, rfl, rfl, fun hne => ?_,
      fun _ => ⟨rfl, rfl⟩⟩
    exfalso
    exact hne (List.eq_nil_of_length_eq_zero (Nat.eq_zero_of_not_pos hlen))

theorem detectLeftOp_fst_ne_nil {e : List Char} {lops : List Char × List Char × List Char}
    (h : detectLeftOp e = some lops) : lops.1 ≠ [] := by
  unfold detectLeftOp at h
  split at h <;> first
    | (cases h; simp)
    | cases h

/-- Claim C6: if the prefix of `code` before the cursor is empty or ends in
whitespace, `parseExpression` returns the all-empty match; and if a left
operator (`.`, `["` or `['`) was recognised but `complexIdentifierRE`
finds no complex identifier immediately preceding it, `parseExpression`
returns `none`. -/
theorem claim_C6_parse_boundaries (code : List Char) (cursorPos : Nat) :
    (((code.take cursorPos).isEmpty || lastIsWhitespace (code.take cursorPos)) = true →
        parseExpression code cursorPos =
          some { matchedText := [], scope := [], leftOp := [], selector := [],
                 rightOp := [] }) ∧
    (∀ lops : List Char × List Char × List Char,
        ((code.take cursorPos).isEmpty || lastIsWhitespace (code.take cursorPos)) = false →
        detectLeftOp (stripSelector (code.take cursorPos)).2 = some lops →
        complexExec lops.2.2 = none →
        parseExpression code cursorPos = none) := by
  constructor
  · intro hws
    simp only [parseExpression]
    rw [if_pos hws]
  · intro lops hws hdet hnone
    have hne := detectLeftOp_fst_ne_nil hdet
    simp only [parseExpression]
    rw [if_neg (by simp [hws])]
    simp only [hdet, hnone]
    rw [if_neg (by simpa [List.isEmpty_iff] using hne)]

/-- Witness for C6: at `code = ".x"`, `cursorPos = 2` the left operator `.`
is recognised with no preceding complex identifier and the parse is
`none`; at `code = "a "`, `cursorPos = 2` the prefix ends in whitespace
and the parse is the all-empty match. -/
theorem claim_C6_witness :
    parseExpression ".x".toList 2 = none ∧
    parseExpression "a ".toList 2 =
      some { matchedText := [], scope := [], leftOp := [], selector := [],
             rightOp := [] } := by
  constructor
  · exact (claim_C6_parse_boundaries ".x".toList 2).2 (['.'], [], []) (by decide)
      (by decide) (by decide)
  · exact (claim_C6_parse_boundaries "a ".toList 2).1 (by decide)

/-- Claim C9: when the prefix before the cursor is empty or ends in
whitespace, the parse is the all-empty match (not null), so the completion
is not delivered synchronously: the dispatched internal task is a
`getAllPropertyNames` task with code `"global"` (the empty scope is
rewritten), and the resulting completion list is the worker's name list
followed by the whole reserved-word list, unfiltered. -/
theorem claim_C9_complete_global_scope (code : List Char) (cursorPos : Nat)
    (hws : ((code.take cursorPos).isEmpty || lastIsWhitespace (code.take cursorPos)) = true) :
    parseExpression code cursorPos =
      some { matchedText := [], scope := [], leftOp := [], selector := [],
             rightOp := [] } ∧
    completeTask code cursorPos =
      some { action := "getAllPropertyNames".toList, code := "global".toList } ∧
    ∀ names : List (List Char),
      (completeOnSuccess
          { matchedText := [], scope := [], leftOp := [], selector := [], rightOp := [] }
          code cursorPos names).list = names ++ javascriptKeywords := by
  have hparse : parseExpression code cursorPos =
      some { matchedText := [], scope := [], leftOp := [], selector := [],
             rightOp := [] } := by
    simp only [parseExpression]
    rw [if_pos hws]
  refine ⟨hparse, ?_, fun names => ?_⟩
  · unfold completeTask
    rw [hparse]
    rfl
  · have hc : completeCandidates
        { matchedText := [], scope := [], leftOp := [], selector := [], rightOp := [] }
        names = names ++ javascriptKeywords := by
      simp [completeCandidates]
    unfold completeOnSuccess
    by_cases h : (completeCandidates
        { matchedText := [], scope := [], leftOp := [], selector := [], rightOp := [] }
        names).length > 0
    · rw [if_pos h]; exact hc
    · rw [if_neg h]; exact hc

/-- Witness for C9 at `code = " b"`, `cursorPos = 1`: the prefix is the
single whitespace character, the task code is `"global"` and a sample name
list is returned whole, followed by the keywords. -/
theorem claim_C9_witness :
    completeTask " b".toList 1 =
      some { action := "getAllPropertyNames".toList, code := "global".toList } ∧
    (completeOnSuccess
        { matchedText := [], scope := [], leftOp := [], selector := [], rightOp := [] }
        " b".toList 1 ["setTimeout".toList]).list =
      "setTimeout".toList :: javascriptKeywords := by
  have h := claim_C9_complete_global_scope " b".toList 1 (by decide)
  exact ⟨h.2.1, h.2.2 ["setTimeout".toList]⟩

/-- Witness for C5 at `code = "se"`, `cursorPos = 2` with worker names
`["setTimeout", "foo"]`: the characterisation is discharged on a concrete
run (the scope is empty so the keywords are appended, then the prefix
filter keeps `setTimeout` and drops the rest). -/
theorem claim_C5_witness :
    (completeOnSuccess seDemoExpr "se".toList 2
        ["setTimeout".toList, "foo".toList]).list =
      ((["setTimeout".toList, "foo".toList] ++ javascriptKeywords).filter
        (fun c => "se".toList.isPrefixOf c)) ∧
    (completeOnSuccess seDemoExpr "se".toList 2
        ["setTimeout".toList, "foo".toList]).cursorStart = 0 := by
  have hp : parseExpression "se".toList 2 = some seDemoExpr := by decide
  have h := claim_C5_completion_postprocessing "se".toList 2
    ["setTimeout".toList, "foo".toList] _ hp
  refine ⟨?_, ?_⟩
  · rw [h.1]
    simp [seDemoExpr]
  · have hne : (completeOnSuccess seDemoExpr "se".toList 2
        ["setTimeout".toList, "foo".toList]).list ≠ [] := by decide
    rw [(h.2.2.2.2.1 hne).1]
    decide

theorem walkProtoChain_cyclic :
    ∀ (fuel : Nat) (pl : List (List Char)) (ql : List Nat) (p : Nat), p < 2 →
      walkProtoChain cyclicHeap fuel pl ql p = none := by
  intro fuel
  induction fuel with
  | zero => intro pl ql p _; rfl
  | succ n ih =>
      intro pl ql p hp
      interval_cases p
      · have hr : cyclicHeap.record 0 = { ownNames := [['a']], proto := some 1 } := rfl
        simp only [walkProtoChain, hr]
        exact ih _ _ 1 (by omega)
      · have hr : cyclicHeap.record 1 = { ownNames := [['b']], proto := some 0 } := rfl
        simp only [walkProtoChain, hr]
        exact ih _ _ 0 (by omega)

/-- Claim C7 (against the code as written): `getAllPropertyNames` returns
the empty list for `undefined` and `null`, and on an acyclic chain it
sorts each prototype's own names and appends the unseen ones; but the
walk does NOT terminate on a prototype that was already visited — the
`prototypeList` bookkeeping is never consulted to stop the loop, so on a
cyclic prototype chain the loop never terminates (the fuelled model
returns `none` for every iteration bound). -/
theorem claim_C7_property_walk (h : JsHeap) (fuel : Nat) :
    getAllPropertyNames h fuel .undef = some [] ∧
    getAllPropertyNames h fuel .jsNull = some [] ∧
    (∀ f : Nat, getAllPropertyNames cyclicHeap f (.objVal 0) = none) ∧
    getAllPropertyNames acyclicDemoHeap 2 (.objVal 0) = some [['a'], ['b'], ['c']] := by
  refine ⟨rfl, rfl, fun f => walkProtoChain_cyclic f [] [0] 0 (by omega), by decide⟩

theorem bundleHas_append_left {b : List (List Char × List Char)} {k : List Char}
    (h : bundleHas b k = true) (l : List (List Char × List Char)) :
    bundleHas (b ++ l) k = true := by
  simp only [bundleHas, List.any_append]
  simp only [bundleHas] at h
  simp [h]

theorem bundleGet_append_left {b : List (List Char × List Char)} {k : List Char}
    (h : bundleHas b k = true) (l : List (List Char × List Char)) :
    bundleGet (b ++ l) k = bundleGet b k := by
  induction b with
  | nil => simp [bundleHas] at h
  | cons a t ih =>
      by_cases hk : a.1 = k
      · simp [bundleGet, List.find?_cons_of_pos, hk]
      · have ht : bundleHas t k = true := by
          simpa [bundleHas, hk] using h
        simpa [bundleGet, List.find?_cons_of_neg, hk] using ih ht

theorem bundleGet_append_new {b : List (List Char × List Char)} {k : List Char}
    (h : bundleHas b k = false) (s : List Char) :
    bundleGet (b ++ [(k, s)]) k = some s := by
  induction b with
  | nil => simp [bundleGet, List.find?]
  | cons a t ih =>
      have hk : ¬(a.1 = k) := by
        intro hak
        simp [bundleHas, hak] at h
      have ht : bundleHas t k = false := by
        revert h
        simp [bundleHas, hk]
      simpa [bundleGet, List.find?_cons_of_neg, hk] using ih ht

theorem addFormat_preserves {b : List (List Char × List Char)} {k : List Char}
    (h : bundleHas b k = true) (k2 : List Char) (f : Option (CallResult (List Char))) :
    bundleGet (addFormat b k2 f) k = bundleGet b k ∧
    bundleHas (addFormat b k2 f) k = true := by
  cases f with
  | none => exact ⟨rfl, h⟩
  | some r =>
      cases r with
      | threw =>
          simp only [addFormat]
          split
          · exact ⟨rfl, h⟩
          · exact ⟨rfl, h⟩
      | ok s =>
          simp only [addFormat]
          split
          · exact ⟨bundleGet_append_left h _, bundleHas_append_left h _⟩
          · exact ⟨rfl, h⟩

theorem ensurePlain_preserves {b : List (List Char × List Char)} {k : List Char}
    (h : bundleHas b k = true) (v : MimeSource) :
    bundleGet (ensurePlain v b) k = bundleGet b k ∧
    bundleHas (ensurePlain v b) k = true := by
  unfold ensurePlain
  split
  · exact ⟨bundleGet_append_left h _, bundleHas_append_left h _⟩
  · exact ⟨rfl, h⟩

theorem finishBundle_preserves {b : List (List Char × List Char)} {k : List Char}
    (h : bundleHas b k = true) (v : MimeSource) :
    bundleGet (finishBundle v b) k = bundleGet b k := by
  obtain ⟨he, he2⟩ := ensurePlain_preserves h v
  obtain ⟨h2, h2b⟩ := addFormat_preserves he2 mimeKeyTextHtml v.toHtmlFn
  obtain ⟨h3, h3b⟩ := addFormat_preserves h2b mimeKeySvg v.toSvgFn
  obtain ⟨h4, h4b⟩ := addFormat_preserves h3b mimeKeyPng v.toPngFn
  obtain ⟨h5, _⟩ := addFormat_preserves h4b mimeKeyJpeg v.toJpegFn
  unfold finishBundle
  rw [h5, h4, h3, h2, he]

theorem finishBundle_plain {b : List (List Char × List Char)}
    (h : bundleHas b mimeKeyTextPlain = false) (v : MimeSource) :
    bundleGet (finishBundle v b) mimeKeyTextPlain = some v.inspectStr := by
  have he : bundleGet (ensurePlain v b) mimeKeyTextPlain = some v.inspectStr := by
    unfold ensurePlain
    rw [if_pos (by simp [h])]
    exact bundleGet_append_new h v.inspectStr
  have he2 : bundleHas (ensurePlain v b) mimeKeyTextPlain = true := by
    unfold ensurePlain
    rw [if_pos (by simp [h])]
    simp [bundleHas, List.any_append]
  obtain ⟨h2, h2b⟩ := addFormat_preserves he2 mimeKeyTextHtml v.toHtmlFn
  obtain ⟨h3, h3b⟩ := addFormat_preserves h2b mimeKeySvg v.toSvgFn
  obtain ⟨h4, h4b⟩ := addFormat_preserves h3b mimeKeyPng v.toPngFn
  obtain ⟨h5, _⟩ := addFormat_preserves h4b mimeKeyJpeg v.toJpegFn
  unfold finishBundle
  rw [h5, h4, h3, h2, he]

/-- Counterexample for C8 as stated: for the value whose `_toMime()`
returns `null`, the claim predicts a bundle whose `text/plain` entry is
the canonical inspect of the value, but `defaultMimer` raises a
`TypeError` (at `"text/plain" in null`) and delivers no bundle at all. -/
theorem claim_C8_counterexample :
    defaultMimer (.other toMimeNullSource) = .raised ∧
    defaultMimer (.other toMimeNullSource) ≠
      .bundle [(mimeKeyTextPlain, toMimeNullSource.inspectStr)] := by
  exact ⟨rfl, by decide⟩

/-- Claim C8 as amended: the default MIME encoder maps `undefined` and
`null` to the singleton `text/plain` bundles; for any other value it
starts from the object returned by `_toMime()` when that exists and
returns a non-null object (every entry of that object is preserved, and a
`text/plain` entry is added from the canonical inspect of the value when
absent); when `_toMime()` returns `null` the encoder throws a `TypeError`
instead of producing a bundle; in all remaining cases (no `_toMime`, a
throwing `_toMime`, or a non-object return) the bundle starts empty and
gets its `text/plain` entry from the canonical inspect. -/
theorem claim_C8_default_mimer :
    defaultMimer .undef = .bundle [(mimeKeyTextPlain, "undefined".toList)] ∧
    defaultMimer .jsNull = .bundle [(mimeKeyTextPlain, "null".toList)] ∧
    (∀ v : MimeSource, v.toMimeFn = some (.ok .retNull) →
        defaultMimer (.other v) = .raised) ∧
    (∀ (v : MimeSource) (b : List (List Char × List Char)),
        v.toMimeFn = some (.ok (.retBundle b)) →
        defaultMimer (.other v) = .bundle (finishBundle v b) ∧
        (∀ k, bundleHas b k = true →
          bundleGet (finishBundle v b) k = bundleGet b k) ∧
        (bundleHas b mimeKeyTextPlain = false →
          bundleGet (finishBundle v b) mimeKeyTextPlain = some v.inspectStr)) ∧
    (∀ v : MimeSource,
        v.toMimeFn = none ∨ v.toMimeFn = some .threw ∨
          v.toMimeFn = some (.ok .retNonObject) →
        defaultMimer (.other v) = .bundle (finishBundle v []) ∧
        bundleGet (finishBundle v []) mimeKeyTextPlain = some v.inspectStr) := by
  refine ⟨rfl, rfl, fun v hv => ?_, fun v b hv => ?_, fun v hv => ?_⟩
  · simp [defaultMimer, hv]
  · refine ⟨by simp [defaultMimer, hv], fun k hk => finishBundle_preserves hk v, ?_⟩
    intro hplain
    exact finishBundle_plain hplain v
  · have hout : defaultMimer (.other v) = .bundle (finishBundle v []) := by
      rcases hv with h | h | h <;> simp [defaultMimer, h]
    exact ⟨hout, finishBundle_plain (by simp [bundleHas]) v⟩

/-- Witness for C8 (amended) at a concrete value whose `_toMime()` returns
a bundle holding only `text/html`: the returned bundle keeps that entry
and gains a `text/plain` entry from the inspect string. -/
theorem claim_C8_witness :
    defaultMimer (.other toMimeHtmlSource) =
      .bundle (finishBundle toMimeHtmlSource
        [(mimeKeyTextHtml, "<b>x</b>".toList)]) ∧
    bundleGet (finishBundle toMimeHtmlSource [(mimeKeyTextHtml, "<b>x</b>".toList)])
        mimeKeyTextHtml = some "<b>x</b>".toList ∧
    bundleGet (finishBundle toMimeHtmlSource [(mimeKeyTextHtml, "<b>x</b>".toList)])
        mimeKeyTextPlain = some "inspected".toList := by
  have h := claim_C8_default_mimer.2.2.2.1 toMimeHtmlSource
    [(mimeKeyTextHtml, "<b>x</b>".toList)] rfl
  refine ⟨h.1, ?_, ?_⟩
  · rw [h.2.1 mimeKeyTextHtml (by decide)]
    decide
  · have := h.2.2 (by decide)
    simpa using this

theorem goF_fuel_irrel (env : SessionEnv) :
    ∀ f1 f2 s job, fuelNeed s job ≤ f1 → fuelNeed s job ≤ f2 →
      goF env f1 s job = goF env f2 s job := by
  intro f1
  induction f1 with
  | zero =>
      intro f2 s job h1 _
      simp only [fuelNeed] at h1
      omega
  | succ n ih =>
      intro f2 s job h1 h2
      cases f2 with
      | zero =>
          simp only [fuelNeed] at h2
          omega
      | succ f2p =>
          cases job with
          | handle msg =>
              have hn : 3 * s.tasks.length + 1 ≤ n := by
                simp only [fuelNeed, jobRank] at h1; omega
              have hm : 3 * s.tasks.length + 1 ≤ f2p := by
                simp only [fuelNeed, jobRank] at h2; omega
              cases hp : msg.payload with
              | log str => simp [goF, hp]
              | statusOnline =>
                  simp only [goF, hp]
                  exact ih f2p { s with status := .online } .next
                    (by simp only [fuelNeed, jobRank]; omega)
                    (by simp only [fuelNeed, jobRank]; omega)
              | display d => simp [goF, hp]
              | request a b => simp [goF, hp]
              | stdout a => simp [goF, hp]
              | stderr a => simp [goF, hp]
              | errorMsg e =>
                  simp only [goF, hp]
                  cases hr : resolveContextTask s msg.id with
                  | none => rfl
                  | some t =>
                      dsimp only
                      by_cases hc : s.currentTask = some t
                      · rw [if_pos hc,
                          ih f2p { s with
                            contextTable :=
                              if msg.endFlag = true then ctxDelete s.contextTable msg.id
                              else s.contextTable,
                            currentTask := none } .next
                            (by simp only [fuelNeed, jobRank]; omega)
                            (by simp only [fuelNeed, jobRank]; omega),
                          if_pos hc]
                      · rw [if_neg hc, if_neg hc]
              | successMsg r =>
                  simp only [goF, hp]
                  cases hr : resolveContextTask s msg.id with
                  | none => rfl
                  | some t =>
                      dsimp only
                      by_cases hc : s.currentTask = some t
                      · rw [if_pos hc,
                          ih f2p { s with
                            contextTable :=
                              if msg.endFlag = true then ctxDelete s.contextTable msg.id
                              else s.contextTable,
                            currentTask := none } .next
                            (by simp only [fuelNeed, jobRank]; omega)
                            (by simp only [fuelNeed, jobRank]; omega),
                          if_pos hc]
                      · rw [if_neg hc, if_neg hc]
          | next =>
              cases hts : s.tasks with
              | nil => simp [goF, hts]
              | cons t rest =>
                  have hn : 3 * rest.length + 3 ≤ n := by
                    simp only [fuelNeed, jobRank, hts, List.length_cons] at h1; omega
                  have hm : 3 * rest.length + 3 ≤ f2p := by
                    simp only [fuelNeed, jobRank, hts, List.length_cons] at h2; omega
                  simp only [goF, hts]
                  exact ih f2p { s with tasks := rest } (.now t)
                    (by simp only [fuelNeed, jobRank]; omega)
                    (by simp only [fuelNeed, jobRank]; omega)
          | now t =>
              have hn : 3 * s.tasks.length + 2 ≤ n := by
                simp only [fuelNeed, jobRank] at h1; omega
              have hm : 3 * s.tasks.length + 2 ≤ f2p := by
                simp only [fuelNeed, jobRank] at h2; omega
              simp only [goF]
              by_cases htr :
                  (env.hasTranspile && ((env.taskOf t).action == TaskAction.run)) = true
              · rw [if_pos htr]
                cases hto : env.transpileOf t with
                | value c => rw [if_pos htr]
                | promiseOk c => rw [if_pos htr]
                | throwErr e =>
                    dsimp only
                    rw [if_pos htr]
                    rw [ih f2p (runNowState s t) (.handle (synthErrorMsg e))
                      (by simp only [fuelNeed, jobRank, runNowState]; omega)
                      (by simp only [fuelNeed, jobRank, runNowState]; omega)]
                | promiseErr e =>
                    dsimp only
                    rw [if_pos htr]
                    rw [ih f2p (runNowState s t) (.handle (synthErrorMsg e))
                      (by simp only [fuelNeed, jobRank, runNowState]; omega)
                      (by simp only [fuelNeed, jobRank, runNowState]; omega)]
              · rw [if_neg htr, if_neg htr]

theorem handleDisplay_lastContextId (env : SessionEnv) (s : SessionState)
    (cid : Option Nat) (d : DisplayPayload) :
    (handleDisplay env s cid d).1.lastContextId = s.lastContextId := by
  cases d with
  | dOpen dispId =>
      simp only [handleDisplay]
      cases resolveContextTask s cid with
      | none => rfl
      | some t =>
          dsimp only
          split <;> rfl
  | dMime a b => rfl
  | dClose dispId => rfl

theorem goF_lastContextId_le (env : SessionEnv) :
    ∀ (fuel : Nat) (s : SessionState) (job : Job),
      s.lastContextId ≤ (goF env fuel s job).1.lastContextId := by
  intro fuel
  induction fuel with
  | zero => intro s job; simp [goF]
  | succ n ih =>
      intro s job
      cases job with
      | handle m =>
          cases hp : m.payload with
          | log str => simp [goF, hp]
          | statusOnline =>
              simp only [goF, hp]
              exact ih { s with status := .online } .next
          | display d =>
              simp only [goF, hp]
              rw [handleDisplay_lastContextId]
          | request a b => simp [goF, hp]
          | stdout a => simp [goF, hp]
          | stderr a => simp [goF, hp]
          | errorMsg e =>
              simp only [goF, hp]
              cases hr : resolveContextTask s m.id with
              | none => simp
              | some t =>
                  dsimp only
                  by_cases hc : s.currentTask = some t
                  · rw [if_pos hc]
                    exact ih { s with
                      contextTable :=
                        if m.endFlag = true then ctxDelete s.contextTable m.id
                        else s.contextTable,
                      currentTask := none } .next
                  · rw [if_neg hc]
          | successMsg r =>
              simp only [goF, hp]
              cases hr : resolveContextTask s m.id with
              | none => simp
              | some t =>
                  dsimp only
                  by_cases hc : s.currentTask = some t
                  · rw [if_pos hc]
                    exact ih { s with
                      contextTable :=
                        if m.endFlag = true then ctxDelete s.contextTable m.id
                        else s.contextTable,
                      currentTask := none } .next
                  · rw [if_neg hc]
      | next =>
          cases hts : s.tasks with
          | nil => simp [goF, hts]
          | cons t rest =>
              simp only [goF, hts]
              exact ih { s with tasks := rest } (.now t)
      | now t =>
          simp only [goF]
          by_cases htr : (env.hasTranspile && ((env.taskOf t).action == TaskAction.run)) = true
          · rw [if_pos htr]
            cases hto : env.transpileOf t with
            | value c => exact Nat.le_succ _
            | promiseOk c => exact Nat.le_succ _
            | throwErr e =>
                exact le_trans (Nat.le_succ _)
                  (ih (runNowState s t) (.handle (synthErrorMsg e)))
            | promiseErr e =>
                exact le_trans (Nat.le_succ _)
                  (ih (runNowState s t) (.handle (synthErrorMsg e)))
          · rw [if_neg htr]
            exact Nat.le_succ _

theorem go_now_lastContextId (env : SessionEnv) (s : SessionState) (t : Nat) :
    s.lastContextId + 1 ≤ (go env s (.now t)).1.lastContextId := by
  show s.lastContextId + 1 ≤
    (goF env (3 * s.tasks.length + 2 + 1) s (.now t)).1.lastContextId
  simp only [goF]
  by_cases htr : (env.hasTranspile && ((env.taskOf t).action == TaskAction.run)) = true
  · rw [if_pos htr]
    cases hto : env.transpileOf t with
    | value c => exact le_refl _
    | promiseOk c => exact le_refl _
    | throwErr e =>
        exact goF_lastContextId_le env (3 * s.tasks.length + 2) (runNowState s t)
          (.handle (synthErrorMsg e))
    | promiseErr e =>
        exact goF_lastContextId_le env (3 * s.tasks.length + 2) (runNowState s t)
          (.handle (synthErrorMsg e))
  · rw [if_neg htr]
    exact le_refl _

theorem issuedIds_mono (env : SessionEnv) :
    ∀ (ops : List SessionOp) (s : SessionState),
      SessionOp.restartOp ∉ ops →
      strictlyIncreasing (issuedIds env s ops) = true ∧
      (∀ x ∈ (issuedIds env s ops).head?, s.lastContextId + 1 ≤ x) := by
  intro ops
  induction ops with
  | nil =>
      intro s _
      exact ⟨rfl, by simp [issuedIds]⟩
  | cons op rest ih =>
      intro s hnr
      cases op with
      | restartOp => exact absurd (List.mem_cons_self _ _) hnr
      | dispatch t =>
          have hnr2 : SessionOp.restartOp ∉ rest := fun h =>
            hnr (List.mem_cons_of_mem _ h)
          obtain ⟨ih1, ih2⟩ := ih (go env s (.now t)).1 hnr2
          constructor
          · cases hrest : issuedIds env (go env s (.now t)).1 rest with
            | nil => simp [issuedIds, hrest, strictlyIncreasing]
            | cons b bs =>
                have hb : (go env s (.now t)).1.lastContextId + 1 ≤ b := by
                  have := ih2 b
                  rw [hrest] at this
                  exact this (by simp)
                have hlt : s.lastContextId + 1 < b := by
                  have := go_now_lastContextId env s t
                  omega
                rw [hrest] at ih1
                simp [issuedIds, hrest, strictlyIncreasing, hlt, ih1]
          · intro x hx
            simp only [issuedIds, List.head?_cons, Option.mem_def,
              Option.some.injEq] at hx
            omega

/-- Counterexample for C4 as stated: dispatching two tasks, restarting,
and dispatching again issues ids `[1, 2, 1]` — the id after the restart
is NOT greater than the ids before it, because `restart` re-runs the
`Session` constructor, which resets `_lastContextId` to `0`. -/
theorem claim_C4_counterexample :
    issuedIds plainEnv initialState
      [.dispatch 0, .dispatch 1, .restartOp, .dispatch 2] = [1, 2, 1] ∧
    strictlyIncreasing (issuedIds plainEnv initialState
      [.dispatch 0, .dispatch 1, .restartOp, .dispatch 2]) = false := by
  exact ⟨by decide, by decide⟩

/-- Claim C4 as amended: context ids are strictly increasing over any
restart-free sequence of dispatches (from any starting state), and a
restart re-initialises the controller state — in particular the id
counter returns to `0`, so ids restart from `1`. -/
theorem claim_C4_ids_monotone (env : SessionEnv) (s : SessionState)
    (ops : List SessionOp) (hnr : SessionOp.restartOp ∉ ops) :
    strictlyIncreasing (issuedIds env s ops) = true ∧
    issuedIds env s (SessionOp.restartOp :: ops) = issuedIds env initialState ops ∧
    initialState.lastContextId = 0 := by
  exact ⟨(issuedIds_mono env ops s hnr).1, rfl, rfl⟩

/-- Witness for C4 (amended): three restart-free dispatches issue ids
`[1, 2, 3]`, which the theorem certifies strictly increasing. -/
theorem claim_C4_witness :
    strictlyIncreasing (issuedIds plainEnv initialState
      [.dispatch 0, .dispatch 1, .dispatch 2]) = true ∧
    issuedIds plainEnv initialState [.dispatch 0, .dispatch 1, .dispatch 2] =
      [1, 2, 3] := by
  refine ⟨(claim_C4_ids_monotone plainEnv initialState
    [.dispatch 0, .dispatch 1, .dispatch 2] (by decide)).1, by decide⟩

/-- Claim C3: `_run` dispatches immediately (through `_runNow`) when the
worker is online and no task is in flight; otherwise it enqueues the task
when the status is not `"dead"`; otherwise it drops the task with no state
change and no callback; and an immediate dispatch with no transform
installed emits `beforeRun` (when present) followed by the
`[action, code, id]` frame. -/
theorem claim_C3_dispatch_rules (env : SessionEnv) (s : SessionState) (t : Nat) :
    (s.status = .online → s.currentTask = none → runTask env s t = go env s (.now t)) ∧
    (s.status = .online → s.currentTask ≠ none →
        runTask env s t = ({ s with tasks := s.tasks ++ [t] }, [])) ∧
    (s.status = .starting → runTask env s t = ({ s with tasks := s.tasks ++ [t] }, [])) ∧
    (s.status = .dead → runTask env s t = (s, [])) ∧
    (s.status = .online → s.currentTask = none → env.hasTranspile = false →
        (runTask env s t).2 =
          (if (env.taskOf t).hasBeforeRun then [Event.beforeRunEv t] else []) ++
            [Event.sendToWorker (env.taskOf t).action (env.taskOf t).code
              (s.lastContextId + 1)]) := by
  refine ⟨fun h1 h2 => ?_, fun h1 h2 => ?_, fun h1 => ?_, fun h1 => ?_,
    fun h1 h2 h3 => ?_⟩
  · unfold runTask
    rw [if_pos ⟨h1, h2⟩]
  · unfold runTask
    rw [if_neg (by simp [h2]), if_pos (by simp [h1])]
  · unfold runTask
    rw [if_neg (by simp [h1]), if_pos (by simp [h1])]
  · unfold runTask
    rw [if_neg (by simp [h1]), if_neg (by simp [h1])]
  · unfold runTask
    rw [if_pos ⟨h1, h2⟩]
    show (goF env (3 * s.tasks.length + 2 + 1) s (.now t)).2 = _
    simp only [goF]
    rw [if_neg (by simp [h3])]

/-- Witness for C3 at concrete sessions: an online idle session dispatches
(the frame carries the task's action, code and the fresh id 1); a busy
session enqueues; a dead session drops everything. -/
theorem claim_C3_witness :
    runTask plainEnv sessionOnlineIdle 0 = go plainEnv sessionOnlineIdle (.now 0) ∧
    (runTask plainEnv sessionOnlineIdle 0).2 =
      [Event.beforeRunEv 0, Event.sendToWorker .run "1+1".toList 1] ∧
    runTask plainEnv sessionBusy 7 =
      ({ sessionBusy with tasks := sessionBusy.tasks ++ [7] }, []) ∧
    runTask plainEnv sessionDead 0 = (sessionDead, []) := by
  have h1 := claim_C3_dispatch_rules plainEnv sessionOnlineIdle 0
  have h2 := claim_C3_dispatch_rules plainEnv sessionBusy 7
  have h3 := claim_C3_dispatch_rules plainEnv sessionDead 0
  refine ⟨h1.1 rfl rfl, ?_, h2.2.1 rfl (by decide), h3.2.2.2.1 rfl⟩
  rw [h1.2.2.2.2 rfl rfl rfl]
  decide

/-- Claim C2 evaluated at the failing scenario: with a transform installed
whose deferred rejects on task 0 and task 1 queued, running task 0 invokes
`onError` with the formatted `{ename, evalue, traceback}` record through
the normal message-handling path, clears the in-flight slot and runs the
queued task — but the synthesised error message carries no `end` flag and
no context id, so `afterRun` of task 0 is never invoked and its context
table entry (id 1) is left in place. -/
theorem claim_C2_transpile_reject_behaviour :
    runTask transpileDemoEnv transpileDemoState 0 =
      ({ tasks := [], currentTask := some 1, contextTable := [(1, 0), (2, 1)],
         displayTable := [], lastContextId := 2, lastTask := some 1,
         status := .online },
       [Event.beforeRunEv 0, Event.onErrorEv 0 (formatError rejectErr),
        Event.beforeRunEv 1, Event.sendToWorker .run "y2".toList 2]) ∧
    Event.afterRunEv 0 ∉ (runTask transpileDemoEnv transpileDemoState 0).2 ∧
    ctxGet (runTask transpileDemoEnv transpileDemoState 0).1.contextTable
      (some 1) = some 0 := by
  exact ⟨by decide, by decide, by decide⟩

/-- Claim C10: for an inbound message other than log, status and display
whose context id has no entry in the context table, the handler falls back
to the last run task; and if no task has ever been run it drops the
message: no callback fires and the state (context table, display table,
queue, in-flight slot) is unchanged. -/
theorem claim_C10_unknown_context (env : SessionEnv) (s : SessionState)
    (m : SessionMsg) (hscope : payloadUsesContext m.payload = true)
    (hmiss : ctxGet s.contextTable m.id = none) :
    resolveContextTask s m.id = s.lastTask ∧
    (s.lastTask = none → go env s (.handle m) = (s, [])) := by
  have hres : resolveContextTask s m.id = s.lastTask := by
    unfold resolveContextTask
    rw [hmiss]
  refine ⟨hres, fun hlast => ?_⟩
  have hres2 : resolveContextTask s m.id = none := by rw [hres, hlast]
  show goF env (3 * s.tasks.length + 2 + 1) s (.handle m) = (s, [])
  cases hp : m.payload with
  | log str => rw [hp] at hscope; simp [payloadUsesContext] at hscope
  | statusOnline => rw [hp] at hscope; simp [payloadUsesContext] at hscope
  | display d => rw [hp] at hscope; simp [payloadUsesContext] at hscope
  | request a b => simp [goF, hp, hres2]
  | stdout a => simp [goF, hp, hres2]
  | stderr a => simp [goF, hp, hres2]
  | errorMsg e => simp [goF, hp, hres2]
  | successMsg r => simp [goF, hp, hres2]

/-- Witness for C10 at a fresh session and a stdout message carrying
unknown context id 7 with `end` set: the message is dropped whole. -/
theorem claim_C10_witness :
    resolveContextTask initialState unknownCtxMsg.id = none ∧
    go plainEnv initialState (.handle unknownCtxMsg) = (initialState, []) := by
  have h := claim_C10_unknown_context plainEnv initialState unknownCtxMsg
    (by decide) (by decide)
  exact ⟨h.1, h.2 rfl⟩

end Nel
